import Mathlib

/-!
Verification of the uci Go package (engine session driver for the
Universal Chess Interface).  The definitions below are a shallow
embedding of the code in src/uci.go and src/stream.go: pure Lean
functions mirror the Go functions, engine mutation is explicit state
passing on an `Engine` record, Go channels are modelled as optional FIFO
queues (a `none` queue is a nil channel), Go runtime panics and
blocked-forever channel operations are explicit outcomes of a step.
Byte strings are modelled as ASCII character lists.
-/

namespace Uci

/-! ## String and list helpers mirroring the Go standard library -/

/-- strings.Join(l, " ") for the token lists handled here. -/
def joinSpace : List String → String
  | [] => ""
  | [s] => s
  | s :: rest => s ++ " " ++ joinSpace rest

/-- strings.HasPrefix on character lists. -/
def strStartsWith (l p : List Char) : Bool :=
  p.isPrefixOf l

/-- strings.Split(line, " "): split at every single space, keeping empty
fields, as Go does for a one-character separator. -/
def splitSpace : List Char → List Char → List String
  | acc, [] => [String.mk acc]
  | acc, c :: cs =>
    if c = ' ' then String.mk acc :: splitSpace [] cs
    else splitSpace (acc ++ [c]) cs

def splitSpaceStr (s : String) : List String := splitSpace [] s.data

/-- strings.Fields: split around runs of whitespace, no empty fields.
Only ASCII whitespace is modelled; UCI lines are ASCII. -/
def isWhite (c : Char) : Bool := c = ' ' || c = '\t' || c = '\n' || c = '\r'

def fieldsAux : List Char → List Char → List String
  | acc, [] => if acc.isEmpty then [] else [String.mk acc]
  | acc, c :: cs =>
    if isWhite c then
      if acc.isEmpty then fieldsAux [] cs else String.mk acc :: fieldsAux [] cs
    else fieldsAux (acc ++ [c]) cs

def fieldsOf (s : String) : List String := fieldsAux [] s.data

/-- strings.Trim(line, "\n"): strip newlines from both ends. -/
def trimNL (s : String) : String :=
  String.mk (((s.data.dropWhile (· = '\n')).reverse.dropWhile (· = '\n')).reverse)

/-- strconv.Atoi: an optional sign followed by a nonempty digit string.
The 64-bit overflow bound is not modelled; all integers in the claims
are small. -/
def digitsToNat (l : List Char) : Nat :=
  l.foldl (fun a c => a * 10 + (c.toNat - 48)) 0

def goAtoi (s : String) : Option Int :=
  match s.data with
  | [] => none
  | '+' :: ds =>
    if ds.isEmpty then none
    else if ds.all Char.isDigit then some (digitsToNat ds : Int) else none
  | '-' :: ds =>
    if ds.isEmpty then none
    else if ds.all Char.isDigit then some (-(digitsToNat ds : Int)) else none
  | ds =>
    if ds.all Char.isDigit then some (digitsToNat ds : Int) else none

/-! ## The text/scanner tokenizer

`parseStdout` initialises a `text/scanner.Scanner` with mode
`ScanIdents | ScanChars | ScanInts`.  On the ASCII engine lines this
yields: identifiers (letter or underscore, then letters, digits or
underscores), runs of decimal digits, and every other non-whitespace
character as a single one-character token.  In particular `-42` is two
tokens `-` and `42`. -/

inductive TKind where
  | blank
  | ident
  | num
deriving DecidableEq

def isIdentStart (c : Char) : Bool := c.isAlpha || c = '_'
def isIdentCont (c : Char) : Bool := c.isAlphanum || c = '_'

def closeTok : TKind → List Char → List String
  | .blank, _ => []
  | _, acc => [String.mk acc]

def tokenizeAux : TKind → List Char → List Char → List String
  | k, acc, [] => closeTok k acc
  | k, acc, c :: cs =>
    if (k == TKind.ident && isIdentCont c) || (k == TKind.num && c.isDigit) then
      tokenizeAux k (acc ++ [c]) cs
    else
      closeTok k acc ++
        (if isWhite c then tokenizeAux .blank [] cs
         else if isIdentStart c then tokenizeAux .ident [c] cs
         else if c.isDigit then tokenizeAux .num [c] cs
         else String.mk [c] :: tokenizeAux .blank [] cs)

def tokenize (l : List Char) : List String := tokenizeAux .blank [] l

/-! ## Data model (uci.go lines 42-115) -/

/-- EngOption (uci.go line 42).  The Go field `Type` is spelled `Typ`
because `Type` is reserved in Lean. -/
structure EngOption where
  Name : String
  Value : String
  Typ : String
  Default : String
  Min : String
  Max : String
  Var : List String
deriving DecidableEq, Repr

def emptyEngOption : EngOption :=
  { Name := "", Value := "", Typ := "", Default := "", Min := "", Max := "", Var := [] }

/-- BestMove (uci.go line 54). -/
structure BestMove where
  BestMove : String
  Ponder : String
deriving DecidableEq, Repr

/-- Score (uci.go line 60). -/
structure Score where
  Val : Int
  Lowerbound : Bool
  Upperbound : Bool
  Mate : Bool
deriving DecidableEq, Repr

def zeroScore : Score := { Val := 0, Lowerbound := false, Upperbound := false, Mate := false }

/-- Info (uci.go line 68).  The Go field `String` is spelled `Str`
because a field named `String` would shadow the type in later fields. -/
structure Info where
  Depth : Int
  SelDepth : Int
  Time : Int
  Nodes : Int
  NodesPerSecond : Int
  PV : List String
  MultiPV : Int
  Score : Score
  CurrMove : String
  CurrMoveNumber : Int
  HashFull : Int
  TBHits : Int
  SBHits : Int
  CPULoad : Int
  Str : String
  Refutation : List String
  CurrLine : List String
deriving DecidableEq, Repr

def zeroInfo : Info :=
  { Depth := 0, SelDepth := 0, Time := 0, Nodes := 0, NodesPerSecond := 0,
    PV := [], MultiPV := 0, Score := zeroScore, CurrMove := "",
    CurrMoveNumber := 0, HashFull := 0, TBHits := 0, SBHits := 0,
    CPULoad := 0, Str := "", Refutation := [], CurrLine := [] }

/-- EngChans (uci.go line 89).  A Go channel is a FIFO queue; `none`
models a nil (never created) channel. -/
structure EngChans where
  infoDone : Option (List Bool)
  readyOK : Option (List Bool)
  bestMove : Option (List BestMove)
deriving DecidableEq, Repr

/-- Engine session state (uci.go line 97).  The subprocess handle and
the stdio buffers are external I/O and are not part of the state the
claims quantify over; `infoBufCap` is a Nat because NewEngineFromPath
rejects negative capacities (uci.go line 628). -/
structure Engine where
  name : String
  author : String
  dName : String
  defaultOptions : List EngOption
  setOptions : List EngOption
  infoBuf : List Info
  infoBufCap : Nat
  lastBestMove : BestMove
  chans : EngChans
deriving DecidableEq, Repr

/-! ## Info line parsing (uci.go lines 456-559)

The scanner walk is embedded as a recursion over the token list.  Two
details of the Go code are preserved faithfully:

* the helper `atoi` (line 462) receives `dest int` and the scanner `s`
  **by value**: the parsed integer is assigned to a discarded copy, and
  the `s.Scan()` inside advances a copy of the scanner, so the original
  scanner re-reads the integer token on the next loop iteration (where
  it matches no case and is skipped).  Only the error escapes, through
  the captured outer `err`.  Hence every integer keyword case merely
  *checks* that the next token parses and consumes nothing;
* `score` (line 501) scans with the original scanner, so it does
  consume its payload, including a separate `-` token for negatives.
-/

/-- The by-value `atoi` helper: scan the next token on a copy of the
scanner (at end of line `TokenText` is empty), try `strconv.Atoi`, and
report only success or failure.  The parsed value is discarded. -/
def atoiCheck : List String → Bool
  | [] => (goAtoi "").isSome
  | t :: _ => (goAtoi t).isSome

/-- One pass of the `for s.Scan() != scanner.EOF` loop of parseStdout
(uci.go line 470), carrying the `Info` under construction and the
`StringSlice` accumulator.  `none` is the early `return err` of an
integer parse failure.  The branches follow the Go switch cases in
order; the final branch is the silent skip of an unmatched token. -/
def parseInfoLoop : Info → List String → List String → Option (Info × List String)
  | info, ss, [] => some (info, ss)
  | info, ss, t :: ts =>
    if t = "info" then parseInfoLoop info ss ts
    else if t = "depth" then
      (if atoiCheck ts then parseInfoLoop info ss ts else none)
    else if t = "seldepth" then
      (if atoiCheck ts then parseInfoLoop info ss ts else none)
    else if t = "time" then
      (if atoiCheck ts then parseInfoLoop info ss ts else none)
    else if t = "nodes" then
      (if atoiCheck ts then parseInfoLoop info ss ts else none)
    else if t = "nps" then
      (if atoiCheck ts then parseInfoLoop info ss ts else none)
    else if t = "pv" then some ({ info with PV := info.PV ++ ts }, ss)
    else if t = "multipv" then
      (if atoiCheck ts then parseInfoLoop info ss ts else none)
    else if t = "score" then
      -- s.Scan(); switch on cp / mate; then an optional minus token;
      -- then strconv.Atoi on the current token (an error aborts the line)
      match ts with
      | [] => none
      | t1 :: r1 =>
        if t1 = "cp" then
          match r1 with
          | [] => none
          | c :: r2 =>
            if c = "-" then
              match r2 with
              | [] => none
              | d :: r3 =>
                (match goAtoi d with
                 | none => none
                 | some v =>
                   parseInfoLoop
                     { info with Score := { info.Score with Val := v * (-1) } } ss r3)
            else
              (match goAtoi c with
               | none => none
               | some v =>
                 parseInfoLoop
                   { info with Score := { info.Score with Val := v * 1 } } ss r2)
        else if t1 = "mate" then
          match r1 with
          | [] => none
          | c :: r2 =>
            if c = "-" then
              match r2 with
              | [] => none
              | d :: r3 =>
                (match goAtoi d with
                 | none => none
                 | some v =>
                   parseInfoLoop
                     { info with
                       Score := { info.Score with Mate := true, Val := v * (-1) } } ss r3)
            else
              (match goAtoi c with
               | none => none
               | some v =>
                 parseInfoLoop
                   { info with
                     Score := { info.Score with Mate := true, Val := v * 1 } } ss r2)
        else if t1 = "-" then
          match r1 with
          | [] => none
          | d :: r2 =>
            (match goAtoi d with
             | none => none
             | some v =>
               parseInfoLoop
                 { info with Score := { info.Score with Val := v * (-1) } } ss r2)
        else
          (match goAtoi t1 with
           | none => none
           | some v =>
             parseInfoLoop { info with Score := { info.Score with Val := v * 1 } } ss r1)
    else if t = "currmove" then
      match ts with
      | [] => some ({ info with CurrMove := "" }, ss)
      | m :: rest => parseInfoLoop { info with CurrMove := m } ss rest
    else if t = "currmovenumber" then
      (if atoiCheck ts then parseInfoLoop info ss ts else none)
    else if t = "hashfull" then
      (if atoiCheck ts then parseInfoLoop info ss ts else none)
    else if t = "tbhits" then
      (if atoiCheck ts then parseInfoLoop info ss ts else none)
    else if t = "sbhits" then
      (if atoiCheck ts then parseInfoLoop info ss ts else none)
    else if t = "cpuload" then
      (if atoiCheck ts then parseInfoLoop info ss ts else none)
    else if t = "string" then some (info, ss ++ ts)
    else if t = "refutation" then some ({ info with Refutation := info.Refutation ++ ts }, ss)
    else if t = "currline" then some ({ info with CurrLine := info.CurrLine ++ ts }, ss)
    else parseInfoLoop info ss ts

/-- Parse one non-readyok, non-bestmove line as an info line: run the
scanner loop from the zero Info and then join `StringSlice` into the
`String` field (uci.go line 559). -/
def parseInfoLine (line : String) : Option Info :=
  match parseInfoLoop zeroInfo [] (tokenize line.data) with
  | none => none
  | some (info, ss) => some { info with Str := joinSpace ss }

/-! ## parseStdout (uci.go lines 419-572) -/

/-- Possible outcomes of dispatching one line.  `parseErr` is the Go
`return err` path (the engine state is untouched there, since the only
mutation of an info line happens after the whole line parsed);
`panicked` is a runtime index-out-of-range panic; `blocked` is a channel
operation that can never complete (send on a nil channel). -/
inductive StepResult where
  | ok (e : Engine)
  | parseErr (e : Engine)
  | panicked
  | blocked
deriving DecidableEq, Repr

/-- The info publication (uci.go lines 564-569): append, trimming to the
most recent `infoBufCap` entries first when the buffer length already
exceeds the capacity and the capacity is nonzero. -/
def appendInfoBuf (e : Engine) (info : Info) : Engine :=
  if e.infoBuf.length > e.infoBufCap && e.infoBufCap != 0 then
    { e with infoBuf := e.infoBuf.drop (e.infoBuf.length - e.infoBufCap) ++ [info] }
  else
    { e with infoBuf := e.infoBuf ++ [info] }

/-- parseStdout (uci.go line 419).  The readyok branch sends on the
readyOK channel (modelled as a queue append; sending on a nil channel
blocks forever).  The bestmove branch splits on single spaces, indexes
fields 1 and (when more than two fields) 3, updates lastBestMove,
drains the bestMove channel and publishes the fresh value.  Every other
line is parsed as an info line and, on success, appended to infoBuf. -/
def parseStdout (e : Engine) (line : String) : StepResult :=
  if strStartsWith line.data "readyok".data then
    match e.chans.readyOK with
    | some q => .ok { e with chans := { e.chans with readyOK := some (q ++ [true]) } }
    | none => .blocked
  else if strStartsWith line.data "bestmove".data then
    let lineSlice := splitSpaceStr line
    match lineSlice.get? 1 with
    | none => .panicked
    | some m =>
      let ponder? : Option String :=
        if lineSlice.length > 2 then lineSlice.get? 3 else some ""
      match ponder? with
      | none => .panicked
      | some p =>
        let b : BestMove := { BestMove := m, Ponder := p }
        match e.chans.bestMove with
        | none => .blocked
        | some _ =>
          .ok { e with lastBestMove := b,
                       chans := { e.chans with bestMove := some [b] } }
  else
    match parseInfoLine line with
    | none => .parseErr e
    | some info => .ok (appendInfoBuf e info)

/-- StartInfoCollection (uci.go line 580): create the three channels.
The spawned goroutine is `readLoop` below. -/
def StartInfoCollection (e : Engine) : Engine :=
  { e with chans := { infoDone := some [], readyOK := some [], bestMove := some [] } }

/-- The goroutine of StartInfoCollection (uci.go lines 585-597): read a
line, trim newlines, dispatch to parseStdout with the returned error
ignored, and loop; stdout EOF (the end of the list) ends the task.  A
panic or a forever-blocked channel operation never reaches a final
state, hence `none`. -/
def readLoop : Engine → List String → Option Engine
  | e, [] => some e
  | e, line :: rest =>
    match parseStdout e (trimNL line) with
    | .ok e' => readLoop e' rest
    | .parseErr e' => readLoop e' rest
    | .panicked => none
    | .blocked => none

/-! ## Caller-side session operations -/

/-- WaitBestMove (uci.go line 383).  A nil channel is reported
immediately; an empty queue has no sender in this sequential model, so
the timer fires; otherwise the front value is received.  The result is
the received BestMove, the error, and the session state afterwards. -/
def WaitBestMove (e : Engine) (timeout : Nat) : BestMove × Option String × Engine :=
  match e.chans.bestMove with
  | none => ({ BestMove := "", Ponder := "" }, some "bestMove channel not made", e)
  | some [] => ({ BestMove := "", Ponder := "" }, some "timed out", e)
  | some (b :: rest) => (b, none, { e with chans := { e.chans with bestMove := some rest } })

/-- GetInfo (uci.go line 400).  `none` models the Go slice panic
`e.infoBuf[len(e.infoBuf)-last:]` with `last > len(e.infoBuf)`.  Note
the Go guard compares `last` against the buffer capacity, not against
the number of held entries. -/
def GetInfo (e : Engine) (last : Int) : Option (List Info) :=
  if last < 0 || last > (e.infoBufCap : Int) then
    some e.infoBuf
  else if (e.infoBuf.length : Int) - last < 0 then
    none
  else
    some (e.infoBuf.drop (e.infoBuf.length - last.toNat))

/-- The loop body of mergeSetOptions (uci.go lines 313-318): remove the
first entry with the given name, then stop. -/
def eraseFirstByName : List EngOption → String → List EngOption
  | [], _ => []
  | v :: rest, n => if v.Name = n then rest else v :: eraseFirstByName rest n

/-- mergeSetOptions (uci.go line 312): remove-then-append. -/
def mergeSetOptions (prev : List EngOption) (new : EngOption) : List EngOption :=
  eraseFirstByName prev new.Name ++ [new]

/-- The EngOption built by SendOption: only Name and Value are set. -/
def mkSetOption (name value : String) : EngOption :=
  { emptyEngOption with Name := name, Value := value }

/-- The session-state effect of SendOption (uci.go line 293).  The
stdin write is assumed to succeed; on a write error the Go code returns
before touching setOptions. -/
def SendOption (e : Engine) (name value : String) : Engine :=
  { e with setOptions := mergeSetOptions e.setOptions (mkSetOption name value) }

def applySendOptions (e : Engine) (calls : List (String × String)) : Engine :=
  calls.foldl (fun acc c => SendOption acc c.1 c.2) e

/-! ## Option line parsing (uci.go lines 136-188) -/

def uciKeywords : List String := ["name", "type", "default", "min", "max", "var"]

/-- The closure `f` of parseUCILine (uci.go line 137): the value is the
run of tokens before the first keyword, joined by single spaces, with
the literal `<empty>` mapped to the empty string; the second component
is the count of consumed tokens. -/
def uciValue (s : List String) : String × Nat :=
  let run := s.takeWhile (fun v => !(uciKeywords.contains v))
  let ret := joinSpace run
  (if ret = "<empty>" then "" else ret, run.length)

/-- The `for i := 0; i < len(s); i++` loop of parseUCILine (uci.go line
161).  After a keyword at index `i` with a value of `skip` tokens, the
loop resumes at index `i + skip + 1`, i.e. on `rest.drop skip`. -/
def parseUCILoop (acc : EngOption) : List String → EngOption
  | [] => acc
  | t :: rest =>
    if t = "name" then
      let (v, skip) := uciValue rest
      parseUCILoop { acc with Name := v } (rest.drop skip)
    else if t = "type" then
      let (v, skip) := uciValue rest
      parseUCILoop { acc with Typ := v } (rest.drop skip)
    else if t = "default" then
      let (v, skip) := uciValue rest
      parseUCILoop { acc with Default := v } (rest.drop skip)
    else if t = "min" then
      let (v, skip) := uciValue rest
      parseUCILoop { acc with Min := v } (rest.drop skip)
    else if t = "max" then
      let (v, skip) := uciValue rest
      parseUCILoop { acc with Max := v } (rest.drop skip)
    else if t = "var" then
      let (v, skip) := uciValue rest
      parseUCILoop { acc with Var := acc.Var ++ [v] } (rest.drop skip)
    else parseUCILoop acc rest
termination_by l => l.length
decreasing_by all_goals (simp [List.length_drop]; try omega)

/-- parseUCILine (uci.go line 136): parse the tokens after `option` and
append the resulting descriptor to defaultOptions. -/
def parseUCILine (e : Engine) (s : List String) : Engine :=
  { e with defaultOptions := e.defaultOptions ++ [parseUCILoop emptyEngOption s] }

/-! ## The line buffer (stream.go lines 69-148)

`OutputStream.Write` re-frames byte chunks into lines.  The state is
the scratch buffer content `buf` (the Go `rw.buf[0:rw.lastChar]`) and
its total size.  Emission to the sink channel is modelled as the list
of lines produced by one write, in order. -/

structure OutputStream where
  bufSize : Nat
  buf : List Char
deriving DecidableEq, Repr

structure OverflowErr where
  Line : List Char
  BufferSize : Nat
  BufferFree : Nat
deriving DecidableEq, Repr

structure WriteResult where
  emitted : List (List Char)
  stream : OutputStream
  n : Nat
  overflow : Option OverflowErr
deriving DecidableEq, Repr

/-- bytes.IndexByte(l, newline) as an Option. -/
def findNL : List Char → Option Nat
  | [] => none
  | c :: cs => if c = '\n' then some 0 else (findNL cs).map (· + 1)

/-- dropWhile never lengthens a list (helper for termination). -/
theorem length_dropWhile_le' {α : Type} (p : α → Bool) :
    ∀ l : List α, (l.dropWhile p).length ≤ l.length := by
  intro l
  induction l with
  | nil => simp [List.dropWhile]
  | cons c cs ih =>
    by_cases hc : p c
    · simp [List.dropWhile, hc]
      omega
    · simp [List.dropWhile, hc]

theorem findNL_lt_length : ∀ (l : List Char) (k : Nat), findNL l = some k → k < l.length := by
  intro l
  induction l with
  | nil => intro k h; simp [findNL] at h
  | cons c cs ih =>
    intro k h
    by_cases hc : c = '\n'
    · simp [findNL, hc] at h
      simp [List.length_cons]
      omega
    · simp [findNL, hc] at h
      obtain ⟨m, hm, rfl⟩ := h
      have := ih m hm
      simp [List.length_cons]
      omega

/-- The Go slice p[a:b]. -/
def sliceChars (p : List Char) (a b : Nat) : List Char := (p.drop a).take (b - a)

/-- The LINES loop of Write (stream.go lines 95-124).  Faithful to the
source, including its off-by-reference bug: the carriage-return check
reads `p[newlineOffset-1]`, an index relative to the chunk start, even
though `newlineOffset` is relative to `firstChar` (the upstream go-cmd
code reads `p[lastChar-1]` instead).  Returns the emitted lines, the
scratch buffer after the loop, and the final `firstChar`. -/
def writeLines (p : List Char) (buf : List Char) (emitted : List (List Char))
    (firstChar : Nat) : List (List Char) × List Char × Nat :=
  match h : findNL (p.drop firstChar) with
  | none => (emitted, buf, firstChar)
  | some off =>
    let lastChar := firstChar + off
    let lastChar :=
      if off > 0 && p.get? (off - 1) == some '\r' then lastChar - 1 else lastChar
    let line := buf ++ sliceChars p firstChar lastChar
    writeLines p [] (emitted ++ [line]) (firstChar + off + 1)
termination_by p.length - firstChar
decreasing_by
  have hlt := findNL_lt_length _ _ h
  simp [List.length_drop] at hlt
  omega

/-- OutputStream.Write (stream.go line 91). -/
def osWrite (rw : OutputStream) (p : List Char) : WriteResult :=
  let n := p.length
  let r := writeLines p rw.buf [] 0
  let emitted := r.1
  let buf1 := r.2.1
  let firstChar := r.2.2
  if firstChar < n then
    let remain := n - firstChar
    let bufFree := rw.bufSize - buf1.length
    if remain > bufFree then
      { emitted := emitted,
        stream := { rw with buf := buf1 },
        n := firstChar,
        overflow := some { Line := buf1 ++ p.drop firstChar,
                           BufferSize := rw.bufSize,
                           BufferFree := bufFree } }
    else
      { emitted := emitted,
        stream := { rw with buf := buf1 ++ p.drop firstChar },
        n := n,
        overflow := none }
  else
    { emitted := emitted, stream := { rw with buf := buf1 }, n := n, overflow := none }

/-! ## Reference definitions taken from the wording of the spec

These are deliberately written from the natural-language spec, to be
compared with the definitions above that were translated from the Go
source. -/

/-- From the spec of SendOption: in `set_options` remove any prior
entry with the same name and append the new entry. -/
def setOptionsSpecStep (prev : List EngOption) (c : String × String) : List EngOption :=
  prev.filter (fun o => o.Name != c.1) ++ [mkSetOption c.1 c.2]

/-- End state of `set_options` after a sequence of SendOption calls,
per the spec wording. -/
def setOptionsSpec (calls : List (String × String)) : List EngOption :=
  calls.foldl setOptionsSpecStep []

/-- The most recent value sent for a name in a sequence of SendOption
calls. -/
def lookupLast : List (String × String) → String → Option String
  | [], _ => none
  | c :: cs, n =>
    match lookupLast cs n with
    | some v => some v
    | none => if c.1 = n then some c.2 else none

/-- From the spec of option parsing: assign a keyword value to its
field (`var` appends). -/
def assignUCI (acc : EngOption) (kw v : String) : EngOption :=
  if kw = "name" then { acc with Name := v }
  else if kw = "type" then { acc with Typ := v }
  else if kw = "default" then { acc with Default := v }
  else if kw = "min" then { acc with Min := v }
  else if kw = "max" then { acc with Max := v }
  else if kw = "var" then { acc with Var := acc.Var ++ [v] }
  else acc

/-- From the spec of option parsing: for each keyword, the value is the
run of tokens up to but not including the next keyword or end of line,
joined by single spaces, with `<empty>` becoming the empty string; the
scan continues at that next keyword. -/
def parseUCISpecLoop (acc : EngOption) : List String → EngOption
  | [] => acc
  | t :: rest =>
    if uciKeywords.contains t then
      let run := rest.takeWhile (fun v => !(uciKeywords.contains v))
      let v := joinSpace run
      let v := if v = "<empty>" then "" else v
      parseUCISpecLoop (assignUCI acc t v) (rest.dropWhile (fun v => !(uciKeywords.contains v)))
    else parseUCISpecLoop acc rest
termination_by l => l.length
decreasing_by
  · simp only [List.length_cons]
    exact Nat.lt_succ_of_le (length_dropWhile_le' _ _)
  · simp [List.length_cons]

/-! ## Lemmas about SendOption (claim C7) -/

/-- Dropping the length of the takeWhile prefix is dropWhile. -/
theorem drop_length_takeWhile {α : Type} (p : α → Bool) :
    ∀ l : List α, l.drop (l.takeWhile p).length = l.dropWhile p := by
  intro l
  induction l with
  | nil => simp [List.takeWhile, List.dropWhile]
  | cons c cs ih =>
    by_cases hc : p c
    · simp [List.takeWhile_cons, List.dropWhile_cons, hc, ih]
    · simp [List.takeWhile_cons, List.dropWhile_cons, hc]

theorem mapName_filter (n : String) :
    ∀ l : List EngOption,
      (l.filter (fun o => o.Name != n)).map EngOption.Name
        = (l.map EngOption.Name).filter (fun m => m != n) := by
  intro l
  induction l with
  | nil => simp
  | cons v rest ih =>
    by_cases hv : v.Name = n
    · simp [List.filter_cons, hv, ih]
    · simp [List.filter_cons, hv, ih]

/-- When no element of the list carries the name, the name filter is
the identity. -/
theorem filter_name_eq_self (n : String) (l : List EngOption)
    (h : ∀ o ∈ l, o.Name ≠ n) : l.filter (fun o => o.Name != n) = l := by
  apply List.filter_eq_self.mpr
  intro o ho
  simpa [bne_iff_ne] using h o ho

/-- Under the per-name uniqueness invariant, the remove-first loop of
mergeSetOptions removes every entry with the name. -/
theorem eraseFirstByName_eq_filter :
    ∀ (l : List EngOption) (n : String),
      (l.map EngOption.Name).Nodup →
      eraseFirstByName l n = l.filter (fun o => o.Name != n) := by
  intro l
  induction l with
  | nil => intro n _; simp [eraseFirstByName]
  | cons v rest ih =>
    intro n hnd
    simp only [List.map_cons, List.nodup_cons] at hnd
    by_cases hv : v.Name = n
    · have hnone : ∀ o ∈ rest, o.Name ≠ n := by
        intro o ho hoe
        apply hnd.1
        rw [hv, ← hoe]
        exact List.mem_map_of_mem EngOption.Name ho
      simp [eraseFirstByName, hv, List.filter_cons,
        filter_name_eq_self n rest hnone]
    · simp [eraseFirstByName, hv, List.filter_cons, ih n hnd.2]

theorem mergeSetOptions_eq_specStep (prev : List EngOption) (c : String × String)
    (h : (prev.map EngOption.Name).Nodup) :
    mergeSetOptions prev (mkSetOption c.1 c.2) = setOptionsSpecStep prev c := by
  simp [mergeSetOptions, setOptionsSpecStep, mkSetOption, emptyEngOption,
    eraseFirstByName_eq_filter prev c.1 h]

theorem specStep_name_mem (prev : List EngOption) (c : String × String) (n : String) :
    n ∈ (setOptionsSpecStep prev c).map EngOption.Name
      ↔ n = c.1 ∨ n ∈ prev.map EngOption.Name := by
  simp only [setOptionsSpecStep, List.map_append, List.mem_append,
    mapName_filter, List.mem_filter, List.map_cons, List.map_nil,
    mkSetOption, List.mem_singleton, bne_iff_ne]
  constructor
  · rintro (⟨hm, _⟩ | hm)
    · exact Or.inr hm
    · exact Or.inl hm
  · rintro (rfl | hm)
    · exact Or.inr rfl
    · by_cases hn : n = c.1
      · exact Or.inr hn
      · exact Or.inl ⟨hm, hn⟩

theorem specStep_nodup (prev : List EngOption) (c : String × String)
    (h : (prev.map EngOption.Name).Nodup) :
    ((setOptionsSpecStep prev c).map EngOption.Name).Nodup := by
  simp only [setOptionsSpecStep, List.map_append, mapName_filter]
  rw [List.nodup_append]
  refine ⟨h.filter _, ?_, ?_⟩
  · simp [mkSetOption]
  · intro m hm hmem
    simp only [List.mem_filter, bne_iff_ne] at hm
    simp [mkSetOption] at hmem
    exact hm.2 hmem

theorem specFold_nodup :
    ∀ (calls : List (String × String)) (prev : List EngOption),
      (prev.map EngOption.Name).Nodup →
      ((calls.foldl setOptionsSpecStep prev).map EngOption.Name).Nodup := by
  intro calls
  induction calls with
  | nil => intro prev h; simpa using h
  | cons c cs ih =>
    intro prev h
    simpa [List.foldl_cons] using ih (setOptionsSpecStep prev c) (specStep_nodup prev c h)

theorem goFold_eq_specFold :
    ∀ (calls : List (String × String)) (prev : List EngOption),
      (prev.map EngOption.Name).Nodup →
      calls.foldl (fun p c => mergeSetOptions p (mkSetOption c.1 c.2)) prev
        = calls.foldl setOptionsSpecStep prev := by
  intro calls
  induction calls with
  | nil => intro prev _; simp
  | cons c cs ih =>
    intro prev h
    simp only [List.foldl_cons, mergeSetOptions_eq_specStep prev c h]
    exact ih (setOptionsSpecStep prev c) (specStep_nodup prev c h)

theorem applySendOptions_setOptions :
    ∀ (calls : List (String × String)) (e : Engine),
      (applySendOptions e calls).setOptions
        = calls.foldl (fun p c => mergeSetOptions p (mkSetOption c.1 c.2)) e.setOptions := by
  intro calls
  induction calls with
  | nil => intro e; simp [applySendOptions]
  | cons c cs ih =>
    intro e
    simp only [applySendOptions, List.foldl_cons] at *
    exact ih { e with setOptions := mergeSetOptions e.setOptions (mkSetOption c.1 c.2) }

theorem specFold_name_mem :
    ∀ (calls : List (String × String)) (prev : List EngOption) (n : String),
      n ∈ (calls.foldl setOptionsSpecStep prev).map EngOption.Name
        ↔ n ∈ calls.map Prod.fst ∨ n ∈ prev.map EngOption.Name := by
  intro calls
  induction calls with
  | nil => intro prev n; simp
  | cons c cs ih =>
    intro prev n
    simp only [List.foldl_cons, List.map_cons, List.mem_cons]
    rw [ih (setOptionsSpecStep prev c) n, specStep_name_mem]
    tauto

theorem specFold_value :
    ∀ (calls : List (String × String)) (prev : List EngOption) (o : EngOption),
      o ∈ calls.foldl setOptionsSpecStep prev →
      lookupLast calls o.Name = some o.Value
        ∨ (lookupLast calls o.Name = none ∧ o ∈ prev) := by
  intro calls
  induction calls with
  | nil =>
    intro prev o ho
    exact Or.inr ⟨rfl, by simpa using ho⟩
  | cons c cs ih =>
    intro prev o ho
    simp only [List.foldl_cons] at ho
    rcases ih (setOptionsSpecStep prev c) o ho with hv | ⟨hnone, hmem⟩
    · left
      simp [lookupLast, hv]
    · simp only [setOptionsSpecStep, List.mem_append, List.mem_filter,
        List.mem_singleton, bne_iff_ne] at hmem
      rcases hmem with ⟨hprev, hne⟩ | rfl

      · right
        refine ⟨?_, hprev⟩
        simp only [lookupLast, hnone]
        rw [if_neg (Ne.symm hne)]
      · left
        simp only [mkSetOption, emptyEngOption] at hnone
        simp [lookupLast, hnone, mkSetOption, emptyEngOption]

/-! ## Lemmas about unrecognized tokens and parse failures -/

/-- The keywords recognized inside an info line by parseStdout. -/
def infoKeywords : List String :=
  ["info", "depth", "seldepth", "time", "nodes", "nps", "pv", "multipv", "score",
   "currmove", "currmovenumber", "hashfull", "tbhits", "sbhits", "cpuload",
   "string", "refutation", "currline"]

/-- A token that is no info keyword falls through the switch and is
skipped. -/
theorem parseInfoLoop_unknown_step (t : String) (rest : List String) (info : Info)
    (ss : List String) (h : ¬ t ∈ infoKeywords) :
    parseInfoLoop info ss (t :: rest) = parseInfoLoop info ss rest := by
  simp only [infoKeywords, List.mem_cons, not_or] at h
  obtain ⟨h1, h2, h3, h4, h5, h6, h7, h8, h9, h10, h11, h12, h13, h14, h15, h16,
    h17, h18, -⟩ := h
  rw [parseInfoLoop.eq_def]
  simp [h1, h2, h3, h4, h5, h6, h7, h8, h9, h10, h11, h12, h13, h14, h15, h16,
    h17, h18]

/-- A line none of whose tokens is an info keyword parses to the
unchanged accumulator. -/
theorem parseInfoLoop_all_unknown :
    ∀ (ts : List String) (info : Info) (ss : List String),
      (∀ t ∈ ts, ¬ t ∈ infoKeywords) →
      parseInfoLoop info ss ts = some (info, ss) := by
  intro ts
  induction ts with
  | nil => intro info ss _; rfl
  | cons t rest ih =>
    intro info ss h
    rw [parseInfoLoop_unknown_step t rest info ss (h t (List.mem_cons_self t rest))]
    exact ih info ss (fun x hx => h x (List.mem_cons_of_mem t hx))

/-! ## Concrete session fixtures used by the scenario theorems -/

/-- A freshly started session: StartInfoCollection has been called, so
the three channels exist and are empty; the info buffer is unbounded. -/
def engStart : Engine :=
  { name := "", author := "", dName := "", defaultOptions := [], setOptions := [],
    infoBuf := [], infoBufCap := 0, lastBestMove := { BestMove := "", Ponder := "" },
    chans := { infoDone := some [], readyOK := some [], bestMove := some [] } }

/-- A session on which StartInfoCollection has never been called: all
channels are nil. -/
def engNoChans : Engine :=
  { engStart with chans := { infoDone := none, readyOK := none, bestMove := none } }

def i1 : Info := { zeroInfo with CurrMove := "a1a2" }
def i2 : Info := { zeroInfo with CurrMove := "b1b2" }
def i3 : Info := { zeroInfo with CurrMove := "c1c2" }
def i4 : Info := { zeroInfo with CurrMove := "d1d2" }

/-! ## Equivalence of the option-line parser with its specification (claim C8) -/

theorem parseUCILoop_eq_specLoop : ∀ (acc : EngOption) (s : List String),
    parseUCILoop acc s = parseUCISpecLoop acc s := by
  intro acc0 s0
  induction acc0, s0 using parseUCILoop.induct with
  | case1 acc => simp [parseUCILoop, parseUCISpecLoop]
  | case2 acc tail v skip hx ih =>
    have hx2 := hx
    simp only [uciValue] at hx2
    injection hx2 with hv hskip
    subst hv hskip
    rw [drop_length_takeWhile] at ih
    have hc : uciKeywords.contains "name" = true := by decide
    simp only [parseUCILoop, hx, parseUCISpecLoop, hc, if_true, assignUCI,
      drop_length_takeWhile]
    simpa using ih
  | case3 acc tail v skip hx h ih =>
    have hx2 := hx
    simp only [uciValue] at hx2
    injection hx2 with hv hskip
    subst hv hskip
    rw [drop_length_takeWhile] at ih
    have hc : uciKeywords.contains "type" = true := by decide
    simp [parseUCILoop, hx, parseUCISpecLoop, hc, assignUCI, drop_length_takeWhile]
    simpa using ih
  | case4 acc tail v skip hx h1 h2 ih =>
    have hx2 := hx
    simp only [uciValue] at hx2
    injection hx2 with hv hskip
    subst hv hskip
    rw [drop_length_takeWhile] at ih
    have hc : uciKeywords.contains "default" = true := by decide
    simp [parseUCILoop, hx, parseUCISpecLoop, hc, assignUCI, drop_length_takeWhile]
    simpa using ih
  | case5 acc tail v skip hx h1 h2 h3 ih =>
    have hx2 := hx
    simp only [uciValue] at hx2
    injection hx2 with hv hskip
    subst hv hskip
    rw [drop_length_takeWhile] at ih
    have hc : uciKeywords.contains "min" = true := by decide
    simp [parseUCILoop, hx, parseUCISpecLoop, hc, assignUCI, drop_length_takeWhile]
    simpa using ih
  | case6 acc tail v skip hx h1 h2 h3 h4 ih =>
    have hx2 := hx
    simp only [uciValue] at hx2
    injection hx2 with hv hskip
    subst hv hskip
    rw [drop_length_takeWhile] at ih
    have hc : uciKeywords.contains "max" = true := by decide
    simp [parseUCILoop, hx, parseUCISpecLoop, hc, assignUCI, drop_length_takeWhile]
    simpa using ih
  | case7 acc tail v skip hx h1 h2 h3 h4 h5 ih =>
    have hx2 := hx
    simp only [uciValue] at hx2
    injection hx2 with hv hskip
    subst hv hskip
    rw [drop_length_takeWhile] at ih
    have hc : uciKeywords.contains "var" = true := by decide
    simp [parseUCILoop, hx, parseUCISpecLoop, hc, assignUCI, drop_length_takeWhile]
    simpa using ih
  | case8 acc t tail h1 h2 h3 h4 h5 h6 ih =>
    have hc : ¬ t ∈ uciKeywords := by
      simp [uciKeywords, h1, h2, h3, h4, h5, h6]
    simp [parseUCILoop, parseUCISpecLoop, h1, h2, h3, h4, h5, h6, hc]
    exact ih

/-! ## Claim theorems -/

/-- The Info actually produced by the scenario S1 line: the score and
the pv survive, every plain integer keyword is discarded. -/
def s1Info : Info :=
  { zeroInfo with Score := { zeroScore with Val := -42 }, PV := ["e2e4", "e7e5"] }

/-- C1: parsing the S1 info line.  The claim expects depth 12, seldepth
15, nodes 1000 and nps 500; the code leaves all four at 0 because the
`atoi` helper receives its destination and the scanner by value, so the
parsed integers never reach the Info.  Only `score` (parsed inline) and
`pv` are populated. -/
theorem c1_s1_integer_fields_discarded :
    parseStdout engStart "info depth 12 seldepth 15 score cp -42 nodes 1000 nps 500 pv e2e4 e7e5"
      = .ok { engStart with infoBuf := [s1Info] }
    ∧ s1Info.Depth = 0 ∧ s1Info.SelDepth = 0 ∧ s1Info.Nodes = 0
    ∧ s1Info.NodesPerSecond = 0
    ∧ s1Info.Score.Val = -42 ∧ s1Info.Score.Mate = false
    ∧ s1Info.PV = ["e2e4", "e7e5"] := by
  decide

/-- C2: the carriage-return strip of the line buffer checks the byte at
the newline offset relative to the chunk start instead of relative to
the current line.  Writing the single chunk `ab\ncd\r\n` emits the
line `cd\r` with its carriage return intact (the claim says an emitted
line never ends in `\r`), and writing `a\rb\ncd\n` wrongly strips the
`d` from the second line. -/
theorem c2_carriage_return_misindexed :
    (osWrite { bufSize := 16384, buf := [] } "ab\ncd\r\n".data).emitted
      = [['a', 'b'], ['c', 'd', '\r']]
    ∧ (osWrite { bufSize := 16384, buf := [] } "a\rb\ncd\n".data).emitted
      = [['a', '\r', 'b'], ['c']] := by
  constructor
  · simp [osWrite, writeLines, findNL, sliceChars]
  · simp [osWrite, writeLines, findNL, sliceChars]

/-- C3: GetInfo compares `last` against the buffer capacity instead of
the held count.  With an unbounded buffer (capacity 0) holding three
entries, GetInfo 2 returns all three entries, not the last two; with
capacity 10 and one held entry, GetInfo 3 slices at a negative index
and panics (modelled as `none`). -/
theorem c3_getinfo_compares_capacity :
    GetInfo { engStart with infoBuf := [i1, i2, i3] } 2 = some [i1, i2, i3]
    ∧ [i1, i2, i3] ≠ [i2, i3]
    ∧ GetInfo { engStart with infoBufCap := 10, infoBuf := [i1] } 3 = none := by
  decide

/-- C4: the trim condition `len(infoBuf) > infoBufCap` lets the buffer
grow to capacity + 1.  With capacity 2, after three publications the
buffer holds all three entries, and from then on every publication
keeps the most recent three. -/
theorem c4_capacity_overshoot_by_one :
    (appendInfoBuf (appendInfoBuf (appendInfoBuf { engStart with infoBufCap := 2 } i1) i2) i3).infoBuf
      = [i1, i2, i3]
    ∧ (appendInfoBuf (appendInfoBuf (appendInfoBuf (appendInfoBuf
        { engStart with infoBufCap := 2 } i1) i2) i3) i4).infoBuf
      = [i2, i3, i4]
    ∧ ¬ ((3 : Nat) ≤ ({ engStart with infoBufCap := 2 } : Engine).infoBufCap) := by
  decide

/-- C5 counterexample: dispatching the line `hello world`, whose first
token is none of the recognized commands, does not leave the session
unchanged: a zero-valued Info is appended to infoBuf. -/
theorem c5_counterexample_chatter_appends :
    parseStdout engStart "hello world" = .ok { engStart with infoBuf := [zeroInfo] }
    ∧ ({ engStart with infoBuf := [zeroInfo] } : Engine).infoBuf ≠ engStart.infoBuf := by
  decide

/-- C5 amended: a line that is not readyok- or bestmove-prefixed is
parsed as an info line; when none of its tokens is an info keyword the
zero Info (empty String field) is appended to infoBuf via the usual
publication, and nothing else changes. -/
theorem c5_amended_chatter_appends_zero_info (e : Engine) (line : String)
    (h1 : strStartsWith line.data "readyok".data = false)
    (h2 : strStartsWith line.data "bestmove".data = false)
    (h3 : ∀ t ∈ tokenize line.data, ¬ t ∈ infoKeywords) :
    parseStdout e line = .ok (appendInfoBuf e zeroInfo) := by
  have hparse : parseInfoLine line = some zeroInfo := by
    rw [parseInfoLine, parseInfoLoop_all_unknown (tokenize line.data) zeroInfo [] h3]
    rfl
  simp [parseStdout, h1, h2, hparse]

/-- C5 witness: the amended claim at the line `hello world` and the
fresh session. -/
theorem c5_amended_witness :
    parseStdout engStart "hello world" = .ok (appendInfoBuf engStart zeroInfo) :=
  c5_amended_chatter_appends_zero_info engStart "hello world" (by decide) (by decide)
    (by decide)

/-- C9: an info line with a failing integer field makes parseStdout
return the error with the session untouched (the append happens only
after the whole line has parsed), and the reader goroutine, which
ignores the returned error, simply continues with the next line. -/
theorem c9_parse_failure_localized (e : Engine) (line : String) (rest : List String)
    (h0 : trimNL line = line)
    (h1 : strStartsWith line.data "readyok".data = false)
    (h2 : strStartsWith line.data "bestmove".data = false)
    (h3 : parseInfoLine line = none) :
    parseStdout e line = .parseErr e
    ∧ readLoop e (line :: rest) = readLoop e rest := by
  have hp : parseStdout e line = .parseErr e := by
    simp [parseStdout, h1, h2, h3]
  refine ⟨hp, ?_⟩
  rw [readLoop, h0, hp]

/-- C9 witness: the line `info depth twelve` fails the integer parse;
the fresh session is unchanged and a following chatter line is still
processed. -/
theorem c9_witness :
    trimNL "info depth twelve" = "info depth twelve"
    ∧ parseStdout engStart "info depth twelve" = .parseErr engStart
    ∧ readLoop engStart ["info depth twelve", "hello engine"]
        = readLoop engStart ["hello engine"] :=
  ⟨by decide,
   (c9_parse_failure_localized engStart "info depth twelve" ["hello engine"]
      (by decide) (by decide) (by decide) (by decide)).1,
   (c9_parse_failure_localized engStart "info depth twelve" ["hello engine"]
      (by decide) (by decide) (by decide) (by decide)).2⟩

/-- C10: with a nil bestMove channel (StartInfoCollection never called)
WaitBestMove returns the zero BestMove and an error at once, for every
timeout, and the session state is returned unchanged. -/
theorem c10_wait_bestmove_nil_channel (e : Engine) (timeout : Nat)
    (h : e.chans.bestMove = none) :
    WaitBestMove e timeout
      = ({ BestMove := "", Ponder := "" }, some "bestMove channel not made", e) := by
  simp [WaitBestMove, h]

/-- C10 witness: the channel-less session at a 5-second timeout. -/
theorem c10_witness :
    engNoChans.chans.bestMove = none
    ∧ WaitBestMove engNoChans 5000
        = ({ BestMove := "", Ponder := "" }, some "bestMove channel not made", engNoChans) :=
  ⟨by decide, c10_wait_bestmove_nil_channel engNoChans 5000 (by decide)⟩

/-- C7: starting from an empty set_options, any sequence of SendOption
calls leaves exactly the spec-described state: the remove-then-append
fold, with distinct names, each carrying the most recent value for its
name, present exactly for the names that were sent. -/
theorem c7_send_option_sequence (e : Engine) (calls : List (String × String))
    (h : e.setOptions = []) :
    (applySendOptions e calls).setOptions = setOptionsSpec calls
    ∧ (((applySendOptions e calls).setOptions).map EngOption.Name).Nodup
    ∧ (∀ n, n ∈ ((applySendOptions e calls).setOptions).map EngOption.Name
        ↔ n ∈ calls.map Prod.fst)
    ∧ (∀ o ∈ (applySendOptions e calls).setOptions,
        lookupLast calls o.Name = some o.Value) := by
  have hfold := applySendOptions_setOptions calls e
  rw [h] at hfold
  have heq : (applySendOptions e calls).setOptions = setOptionsSpec calls := by
    rw [hfold, setOptionsSpec]
    exact goFold_eq_specFold calls [] (by simp)
  refine ⟨heq, ?_, ?_, ?_⟩
  · rw [heq]
    exact specFold_nodup calls [] (by simp)
  · intro n
    rw [heq]
    simpa using specFold_name_mem calls [] n
  · intro o ho
    rw [heq] at ho
    rcases specFold_value calls [] o ho with hv | ⟨-, hmem⟩
    · exact hv
    · simp at hmem

/-- C7 witness: a Hash update superseding an earlier Hash. -/
theorem c7_witness :
    engStart.setOptions = []
    ∧ ((applySendOptions engStart [("Hash", "16"), ("Threads", "4"), ("Hash", "32")]).setOptions
        = setOptionsSpec [("Hash", "16"), ("Threads", "4"), ("Hash", "32")]
      ∧ (((applySendOptions engStart [("Hash", "16"), ("Threads", "4"), ("Hash", "32")]).setOptions).map EngOption.Name).Nodup
      ∧ (∀ n, n ∈ ((applySendOptions engStart [("Hash", "16"), ("Threads", "4"), ("Hash", "32")]).setOptions).map EngOption.Name
          ↔ n ∈ ([("Hash", "16"), ("Threads", "4"), ("Hash", "32")] : List (String × String)).map Prod.fst)
      ∧ (∀ o ∈ (applySendOptions engStart [("Hash", "16"), ("Threads", "4"), ("Hash", "32")]).setOptions,
          lookupLast [("Hash", "16"), ("Threads", "4"), ("Hash", "32")] o.Name = some o.Value)) :=
  ⟨rfl, c7_send_option_sequence engStart [("Hash", "16"), ("Threads", "4"), ("Hash", "32")] rfl⟩


/-- C6 counterexample: the bestmove parser never checks the literal
`ponder`: on `bestmove e2e4 x y` it stores the fourth field `y` as the
ponder move even though no `ponder` token appears, where the claim
requires an empty ponder. -/
theorem c6_counterexample_ponder_not_checked :
    parseStdout engStart "bestmove e2e4 x y"
      = .ok { engStart with
              lastBestMove := { BestMove := "e2e4", Ponder := "y" },
              chans := { engStart.chans with
                         bestMove := some [{ BestMove := "e2e4", Ponder := "y" }] } }
    ∧ ¬ "ponder" ∈ splitSpaceStr "bestmove e2e4 x y"
    ∧ ({ BestMove := "e2e4", Ponder := "y" } : BestMove).Ponder ≠ "" := by
  decide

/-- C6 amended: on a bestmove line the field at index 1 of the
space-split line becomes the best move; whenever the line has more than
three fields the field at index 3 becomes the ponder move, whether or
not a literal `ponder` appears (with exactly three fields the code
panics, and with two the ponder is empty); lastBestMove is updated, the
channel is drained and holds exactly the fresh value, so a WaitBestMove
before any later bestmove returns exactly this bestmove. -/
theorem c6_amended_bestmove (e : Engine) (line : String) (q : List BestMove) (m : String)
    (hch : e.chans.bestMove = some q)
    (hr : strStartsWith line.data "readyok".data = false)
    (hb : strStartsWith line.data "bestmove".data = true) :
    (∀ w p rest, splitSpaceStr line = "bestmove" :: m :: w :: p :: rest →
      parseStdout e line
        = .ok { e with
                lastBestMove := { BestMove := m, Ponder := p },
                chans := { e.chans with
                           bestMove := some [{ BestMove := m, Ponder := p }] } }
      ∧ (WaitBestMove { e with
                lastBestMove := { BestMove := m, Ponder := p },
                chans := { e.chans with
                           bestMove := some [{ BestMove := m, Ponder := p }] } } 1000).1
          = { BestMove := m, Ponder := p })
    ∧ (splitSpaceStr line = ["bestmove", m] →
      parseStdout e line
        = .ok { e with
                lastBestMove := { BestMove := m, Ponder := "" },
                chans := { e.chans with
                           bestMove := some [{ BestMove := m, Ponder := "" }] } }) := by
  constructor
  · intro w p rest hsplit
    constructor
    · simp only [parseStdout, hr, hb, hsplit, hch]
      simp [List.length_cons]
    · simp [WaitBestMove]
  · intro hsplit
    simp only [parseStdout, hr, hb, hsplit, hch]
    simp [List.length_cons]

/-- C6 witness: scenario S4, `bestmove g1f3 ponder d7d5`, on the fresh
session; WaitBestMove then returns that exact bestmove. -/
theorem c6_witness :
    splitSpaceStr "bestmove g1f3 ponder d7d5" = ["bestmove", "g1f3", "ponder", "d7d5"]
    ∧ (parseStdout engStart "bestmove g1f3 ponder d7d5"
        = .ok { engStart with
                lastBestMove := { BestMove := "g1f3", Ponder := "d7d5" },
                chans := { engStart.chans with
                           bestMove := some [{ BestMove := "g1f3", Ponder := "d7d5" }] } }
      ∧ (WaitBestMove { engStart with
                lastBestMove := { BestMove := "g1f3", Ponder := "d7d5" },
                chans := { engStart.chans with
                           bestMove := some [{ BestMove := "g1f3", Ponder := "d7d5" }] } } 1000).1
          = { BestMove := "g1f3", Ponder := "d7d5" }) :=
  ⟨by decide,
   (c6_amended_bestmove engStart "bestmove g1f3 ponder d7d5" [] "g1f3" rfl (by decide)
      (by decide)).1 "ponder" "d7d5" [] (by decide)⟩

/-- C8: the Go index-skipping option parser computes exactly the
spec-described keyword/value-run assignment (runs delimited by the next
keyword or end of line, joined with single spaces, `<empty>` becoming
empty, `var` appending), and the two scenario lines S2 and S3 produce
exactly the expected descriptors in defaultOptions. -/
theorem c8_option_value_runs :
    (∀ (acc : EngOption) (s : List String), parseUCILoop acc s = parseUCISpecLoop acc s)
    ∧ parseUCILine engStart ((fieldsOf "option name Hash type spin default 16 min 1 max 1024").drop 1)
        = { engStart with defaultOptions :=
            [{ Name := "Hash", Value := "", Typ := "spin", Default := "16",
               Min := "1", Max := "1024", Var := [] }] }
    ∧ parseUCILine engStart ((fieldsOf "option name UCI_AnalyseMode type check default <empty>").drop 1)
        = { engStart with defaultOptions :=
            [{ Name := "UCI_AnalyseMode", Value := "", Typ := "check", Default := "",
               Min := "", Max := "", Var := [] }] } := by
  refine ⟨parseUCILoop_eq_specLoop, ?_, ?_⟩
  · simp [parseUCILine, fieldsOf, fieldsAux, isWhite, parseUCILoop, uciValue,
      uciKeywords, joinSpace, emptyEngOption, engStart]
  · simp [parseUCILine, fieldsOf, fieldsAux, isWhite, parseUCILoop, uciValue,
      uciKeywords, joinSpace, emptyEngOption, engStart]

end Uci
